import Mathlib

namespace Wlx

/-!
Verification of the overlay registry / deferred task scheduler of
wlx-overlay-s-osc against its natural-language specification.

The embedding is shallow: Rust data types become Lean structures and
inductives, the stateful operations become pure state-passing functions.
Times (`Instant`) are modelled as rationals, f32 geometry as real numbers.
Components of the repository whose source is not among the excerpts
(the `TaskContainer` scheduler in `backend/task.rs`, `OverlayState::reset`
and id assignment in `backend/overlay.rs`, and the main-loop task
execution policy) are modelled from the specification; each such
definition carries a doc comment saying so.
-/

/-! ## Deferred task scheduler

Modelled from the spec (§4.3, §3 "Deferred Task"): `backend/task.rs` is
not among the source excerpts.  A task is pure data tagged with a
not-before instant; the container keeps tasks in time order, stable
(FIFO) on ties, and `drain_ready` removes the ready prefix. -/

/-- A deferred task: not-before instant, enqueue sequence number
(implicit in the source's stable queue; made explicit here to state
FIFO properties), and the payload. -/
structure DeferredTask (α : Type) where
  time : ℚ
  seq : Nat
  payload : α

/-- Modelled from the spec: "`enqueue_at` inserts in time order (stable
on ties, FIFO)" — the new task goes after every task whose instant is
less than or equal to its own. -/
def enqueueSorted {α : Type} (τ : DeferredTask α) :
    List (DeferredTask α) → List (DeferredTask α)
  | [] => [τ]
  | t :: ts => if t.time ≤ τ.time then t :: enqueueSorted τ ts else τ :: t :: ts

/-- Modelled from the spec: the process-wide time-ordered task queue
(`TaskContainer` in the source). -/
structure TaskContainer (α : Type) where
  tasks : List (DeferredTask α)
  nextSeq : Nat

/-- A fresh, empty task container. -/
def TaskContainer.empty {α : Type} : TaskContainer α := ⟨[], 0⟩

/-- Modelled from the spec: `enqueue_at(kind, instant)`. -/
def TaskContainer.enqueue_at {α : Type} (c : TaskContainer α) (kind : α)
    (instant : ℚ) : TaskContainer α :=
  ⟨enqueueSorted ⟨instant, c.nextSeq, kind⟩ c.tasks, c.nextSeq + 1⟩

/-- Modelled from the spec: `drain_ready(now)` "removes and returns, in
order, every task whose not-before ≤ now". -/
def TaskContainer.drain_ready {α : Type} (c : TaskContainer α) (now : ℚ) :
    List (DeferredTask α) × TaskContainer α :=
  (c.tasks.takeWhile (fun τ => τ.time ≤ now),
   ⟨c.tasks.dropWhile (fun τ => τ.time ≤ now), c.nextSeq⟩)

/-- A container obtained by enqueueing the given (instant, payload)
pairs, in order, into an empty container. -/
def buildContainer {α : Type} (entries : List (ℚ × α)) : TaskContainer α :=
  entries.foldl (fun c e => c.enqueue_at e.2 e.1) .empty

/-- The strict ordering the queue maintains: earlier instant first,
and lower sequence number (earlier enqueue) first among equal instants. -/
def taskOrder {α : Type} (a b : DeferredTask α) : Prop :=
  a.time < b.time ∨ (a.time = b.time ∧ a.seq < b.seq)

/-- The invariant every reachable container satisfies: tasks sorted by
`taskOrder` and all sequence numbers below the next one. -/
structure ContainerInv {α : Type} (c : TaskContainer α) : Prop where
  sorted : c.tasks.Pairwise taskOrder
  fresh : ∀ τ ∈ c.tasks, τ.seq < c.nextSeq

/-! ## Overlay data model

From `backend/common.rs` and the uses in `overlays/toast.rs` /
`overlays/anchor.rs`.  `backend/overlay.rs` itself is not among the
excerpts, so the `OverlayState` record is reconstructed from its uses
and the spec's §3 "OverlayState"; f32 scalars become rationals. -/

/-- A 3-vector of rationals (glam `Vec3A` as used for spawn points). -/
structure VecQ where
  x : ℚ
  y : ℚ
  z : ℚ
deriving DecidableEq, Repr

def VecQ.add (a b : VecQ) : VecQ := ⟨a.x + b.x, a.y + b.y, a.z + b.z⟩

/-- A quaternion over the rationals (glam `Quat`, components x y z w). -/
structure QuatQ where
  x : ℚ
  y : ℚ
  z : ℚ
  w : ℚ
deriving DecidableEq, Repr

def QuatQ.IDENTITY : QuatQ := ⟨0, 0, 0, 1⟩

/-- Hamilton product, as glam's `Quat::mul`. -/
def QuatQ.mul (a b : QuatQ) : QuatQ :=
  ⟨a.w * b.x + a.x * b.w + a.y * b.z - a.z * b.y,
   a.w * b.y - a.x * b.z + a.y * b.w + a.z * b.x,
   a.w * b.z + a.x * b.y - a.y * b.x + a.z * b.w,
   a.w * b.w - a.x * b.x - a.y * b.y - a.z * b.z⟩

/-- Quat::from_rotation_x(PI): axis x, half-angle π/2, exactly (1,0,0,0). -/
def QuatQ.rotX_PI : QuatQ := ⟨1, 0, 0, 0⟩

/-- Quat::from_rotation_z(PI): axis z, half-angle π/2, exactly (0,0,1,0). -/
def QuatQ.rotZ_PI : QuatQ := ⟨0, 0, 1, 0⟩

/-- Positioning policy per entity (§4.2; variants as used in
`toast.rs` and `anchor.rs`). -/
inductive Positioning where
  | Static
  | FollowHead (lerp : ℚ)
  | FollowHand (hand : Nat) (lerp : ℚ)
deriving DecidableEq, Repr

/-- Per-entity mutable state.  Reconstructed from the uses in
`common.rs` / `toast.rs` / `anchor.rs` and the spec's §3.  The `id` is
the `OverlayID`; the spec assigns it at creation, process-unique.
Default field values model Rust's `..Default::default()`. -/
structure OverlayState where
  id : Nat := 0
  name : String := ""
  want_visible : Bool := false
  interactable : Bool := false
  grabbable : Bool := false
  show_hide : Bool := false
  recenter : Bool := true
  dirty : Bool := false
  z_order : Int := 0
  spawn_scale : ℚ := 0
  spawn_point : VecQ := ⟨0, 0, 0⟩
  spawn_rotation : QuatQ := QuatQ.IDENTITY
  positioning : Positioning := .Static
deriving DecidableEq, Repr

instance : Inhabited OverlayState := ⟨{}⟩

/-- `OverlaySelector` from `backend/common.rs`: by stable numeric id or
by (shared) display name. -/
inductive OverlaySelector where
  | Id (id : Nat)
  | Name (name : String)
deriving DecidableEq, Repr

/-! The registry (`OverlayContainer`): an `IdMap` keyed by
`state.id.0`, modelled as a list of entities in iteration order; the
key of each entry is its `id` field.  `remove_by_selector`, the
lookups and `show_hide` below are translated from
`backend/common.rs`. -/

/-- `OverlayContainer::get_by_id` (IdMap lookup by key). -/
def get_by_id (i : Nat) (c : List OverlayState) : Option OverlayState :=
  c.find? (fun o => o.id == i)

/-- `OverlayContainer::get_by_name`: first entity in iteration order
whose name matches. -/
def get_by_name (n : String) (c : List OverlayState) : Option OverlayState :=
  c.find? (fun o => o.name == n)

/-- `OverlayContainer::mut_by_selector` (same resolution as the `get`
variants; mutation is irrelevant in the pure model). -/
def mut_by_selector (sel : OverlaySelector) (c : List OverlayState) :
    Option OverlayState :=
  match sel with
  | .Id i => get_by_id i c
  | .Name n => get_by_name n c

/-- `OverlayContainer::remove_by_selector`: by id, remove the keyed
entry; by name, find the first name match, then remove by its id.
Returns the removed entity and the remaining registry. -/
def remove_by_selector (sel : OverlaySelector) (c : List OverlayState) :
    Option OverlayState × List OverlayState :=
  match sel with
  | .Id i => (c.find? (fun o => o.id == i), c.eraseP (fun o => o.id == i))
  | .Name n =>
    match c.find? (fun o => o.name == n) with
    | none => (none, c)
    | some o => (some o, c.eraseP (fun e => e.id == o.id))

/-! ## Upright-snap geometry

`snap_upright` from `backend/common.rs`, over an idealised real-number
model of the f32 vectors (glam `Vec3A` / `Affine3A`). -/

/-- A 3-vector of reals. -/
structure Vec3R where
  x : ℝ
  y : ℝ
  z : ℝ

/-- Dot product. -/
def dotR (a b : Vec3R) : ℝ := a.x * b.x + a.y * b.y + a.z * b.z

/-- Cross product. -/
def crossR (a b : Vec3R) : Vec3R :=
  ⟨a.y * b.z - a.z * b.y, a.z * b.x - a.x * b.z, a.x * b.y - a.y * b.x⟩

/-- Scalar multiple. -/
def scaleR (s : ℝ) (v : Vec3R) : Vec3R := ⟨s * v.x, s * v.y, s * v.z⟩

/-- Componentwise sum and difference. -/
def addR (a b : Vec3R) : Vec3R := ⟨a.x + b.x, a.y + b.y, a.z + b.z⟩

def subR (a b : Vec3R) : Vec3R := ⟨a.x - b.x, a.y - b.y, a.z - b.z⟩

/-- Euclidean length (`Vec3A::length`). -/
noncomputable def lengthR (v : Vec3R) : ℝ := Real.sqrt (dotR v v)

/-- `Vec3A::normalize`: the vector scaled by the inverse of its length. -/
noncomputable def normalizeR (v : Vec3R) : Vec3R := scaleR (lengthR v)⁻¹ v

/-- The zero vector. -/
def zeroV : Vec3R := ⟨0, 0, 0⟩

/-- World up, `Vec3A::Y`. -/
def vecY : Vec3R := ⟨0, 1, 0⟩

/-- An affine transform by its three basis columns and translation
(glam `Affine3A`). -/
structure Aff3 where
  x_axis : Vec3R
  y_axis : Vec3R
  z_axis : Vec3R
  translation : Vec3R

/-- `snap_upright` from `backend/common.rs`: when the lateral (x) axis
is nearly orthogonal to `up_dir` (|dot| below 0.2), rebuild an
orthonormal frame from the normalised forward axis and `up_dir`,
scaled by the x-axis length, keeping the translation; otherwise pass
the transform through untouched. -/
noncomputable def snap_upright (transform : Aff3) (up_dir : Vec3R) : Aff3 :=
  if |dotR transform.x_axis up_dir| < (0.2 : ℝ) then
    let scale := lengthR transform.x_axis
    let col_z := normalizeR transform.z_axis
    let col_y := up_dir
    let col_x := crossR col_y col_z
    let col_y' := normalizeR (crossR col_z col_x)
    let col_x' := normalizeR col_x
    ⟨scaleR scale col_x', scaleR scale col_y', scaleR scale col_z,
      transform.translation⟩
  else transform

/-! ## Application context

`AppState` / `AppSession` from `state.rs`, restricted to the fields the
registry, scheduler and toast producer read; collaborator services
(font sizing, canvas building, audio) out of scope per §1/§6 are
modelled as oracles. -/

/-- `DisplayMethod` from `overlays/toast.rs`. -/
inductive DisplayMethod where
  | Hide
  | Center
  | Watch
deriving DecidableEq, Repr

/-- `ToastTopic` from `overlays/toast.rs`. -/
inductive ToastTopic where
  | System
  | DesktopNotification
  | XSNotification
  | IpdChange
deriving DecidableEq, Repr

/-- `LeftRight` from `state.rs`. -/
inductive LeftRight where
  | Left
  | Right
deriving DecidableEq, Repr

/-- The fields of `GeneralConfig` read by the embedded operations
(`config.rs` is not among the excerpts; field set taken from the
uses in `common.rs`, `toast.rs` and `state.rs`). -/
structure GeneralConfigM where
  realign_on_showhide : Bool := true
  notifications_sound_enabled : Bool := true
  notification_topics : List (ToastTopic × DisplayMethod) := []
  watch_pos : VecQ := ⟨0, 0, 0⟩
  watch_rot : QuatQ := QuatQ.IDENTITY
  watch_hand : LeftRight := .Left

/-- `AppSession` from `state.rs`: the config plus the per-topic toast
display-method map (an `IdMap`, modelled as a keyed list). -/
structure AppSessionM where
  config : GeneralConfigM
  toast_topics : List (ToastTopic × DisplayMethod)

/-- Insert into a keyed list with `IdMap::insert` semantics: replace
the entry with the same key, else append. -/
def idInsert {κ ν : Type} [DecidableEq κ] (k : κ) (v : ν) :
    List (κ × ν) → List (κ × ν)
  | [] => [(k, v)]
  | e :: es => if e.1 = k then (k, v) :: es else e :: idInsert k v es

/-- Key lookup in a keyed list (`IdMap::get`). -/
def idGet {κ ν : Type} [DecidableEq κ] (k : κ) (m : List (κ × ν)) : Option ν :=
  (m.find? (fun e => e.1 = k)).map Prod.snd

/-- `AppSession::load` from `state.rs`, with the on-disk config passed
in instead of read from disk: seeds `toast_topics` with `Center` for
`System`, `DesktopNotification` and `XSNotification`, then overlays
every pair from `config.notification_topics`. -/
def AppSession.load (config : GeneralConfigM) : AppSessionM :=
  { config := config
    toast_topics :=
      config.notification_topics.foldl (fun m e => idInsert e.1 e.2 m)
        (idInsert .XSNotification .Center
          (idInsert .DesktopNotification .Center
            (idInsert .System .Center []))) }

/-- The application context a deferred factory receives at execution
time (§6 "Backend factory"): session configuration, the font-sizing
oracle (`app.fc.get_text_size`, a collaborator out of scope), the
canvas-construction oracle (`CanvasBuilder::new`), and the next fresh
`OverlayID` — the spec assigns ids at creation, process-unique;
modelled as a counter. -/
structure FactoryCtx where
  session : AppSessionM
  fc : String → Option (ℚ × ℚ)
  canvas_ok : Bool := true
  next_id : Nat := 0

/-- A deferred structural operation (`TaskType` in `backend/task.rs`,
modelled from the spec §3 "Deferred Task"): create with a factory that
may also schedule future drop tasks (the toast factory does), or drop
by selector. -/
inductive TaskType where
  | CreateOverlay (sel : OverlaySelector)
      (factory : FactoryCtx → Option (OverlayState × List (OverlaySelector × ℚ)))
  | DropOverlay (sel : OverlaySelector)

/-- The application state threaded through the registry and scheduler:
factory context, task queue, anchor transform and head pose. -/
structure AppM where
  ctx : FactoryCtx
  tasks : TaskContainer TaskType
  anchor : Aff3
  input_hmd : Aff3

/-- The always-present watch panel's name (`WATCH_NAME`; `watch.rs` is
not among the excerpts — modelled from the spec's
"watch/home panel"). -/
def WATCH_NAME : String := "watch"

/-- `ANCHOR_LOCAL` from `OverlayContainer::show_hide`:
`Affine3A::from_translation(Vec3::NEG_Z)`. -/
def ANCHOR_LOCAL : Aff3 := ⟨⟨1, 0, 0⟩, ⟨0, 1, 0⟩, ⟨0, 0, 1⟩, ⟨0, 0, -1⟩⟩

/-- Matrix-times-vector for the 3×3 part of an affine transform. -/
def matMulVec (m : Aff3) (v : Vec3R) : Vec3R :=
  addR (addR (scaleR v.x m.x_axis) (scaleR v.y m.y_axis)) (scaleR v.z m.z_axis)

/-- Affine composition (glam `Affine3A` multiplication). -/
def affMul (a b : Aff3) : Aff3 :=
  ⟨matMulVec a b.x_axis, matMulVec a b.y_axis, matMulVec a b.z_axis,
   addR (matMulVec a b.translation) a.translation⟩

/-- Whether any show/hide-group member currently wants to be visible
(the `any_shown` scan in `OverlayContainer::show_hide`). -/
def anyShown (c : List OverlayState) : Bool :=
  c.any (fun o => o.show_hide && o.want_visible)

/-- Modelled from the spec: `OverlayState::reset` (in the absent
`backend/overlay.rs`) re-centers the smoothed transform onto the
current target pose (§4.2; the transform itself is not tracked by this
model) and, when `hard` is set, forces the entity visible — §4.1's
"force-reset to visible" for the watch. -/
def resetState (hard : Bool) (o : OverlayState) : OverlayState :=
  { o with want_visible := o.want_visible || hard }

/-- The per-entity body of the `for_each` in
`OverlayContainer::show_hide`, first half: group members get
`want_visible = !any_shown`, and a freshly shown member is re-centered
when the config asks for realign-on-showhide and the entity opted in. -/
def applyToggle (any_shown realign : Bool) (o : OverlayState) : OverlayState :=
  if o.show_hide then
    let o2 := { o with want_visible := !any_shown }
    if o2.want_visible && realign && o2.recenter then resetState false o2 else o2
  else o

/-- Second half of the `for_each`: "toggle watch back on if it was
hidden" — on a global show, any entity named `watch` is hard-reset. -/
def applyWatchReset (any_shown : Bool) (o : OverlayState) : OverlayState :=
  if !any_shown && o.name == WATCH_NAME then resetState true o else o

/-- One entity's complete update in `show_hide`. -/
def showHideEntity (any_shown realign : Bool) (o : OverlayState) : OverlayState :=
  applyWatchReset any_shown (applyToggle any_shown realign o)

/-- `OverlayContainer::show_hide` from `backend/common.rs`: scan for
any visible group member; on a global show re-seat the anchor one unit
in front of the upright-snapped head; then update every entity. -/
noncomputable def show_hide (app : AppM) (c : List OverlayState) :
    AppM × List OverlayState :=
  let any_shown := anyShown c
  let app' :=
    if any_shown then app
    else { app with anchor := affMul (snap_upright app.input_hmd vecY) ANCHOR_LOCAL }
  (app', c.map (showHideEntity any_shown app.ctx.session.config.realign_on_showhide))

/-! ## Task execution

Modelled from the spec (§4.3 execution policy, §5): the main loop that
drains the queue once per tick and applies each task to the registry
is not among the source excerpts.  `DropOverlay` applies
`remove_by_selector` (which is from the source); `CreateOverlay`
whose selector already resolves is consumed without invoking the
factory; otherwise the factory runs, its entity (if any) is inserted
keyed by its id, and the drop tasks it scheduled enter the live
queue.  Each executed task also reports whether a create factory was
invoked, to state the idempotency claim. -/

/-- `IdMap::insert` keyed by `state.id.0` (`OverlayContainer::add`):
replace the entry with the same key in place, else append. -/
def addOverlay (st : OverlayState) (reg : List OverlayState) :
    List OverlayState :=
  if reg.any (fun o => o.id == st.id) then
    reg.map (fun o => if o.id == st.id then st else o)
  else reg ++ [st]

/-- Execute one drained task against the app state and registry.
Modelled from the spec; the factory-returned new id is consumed from
the creation counter. -/
def runTask (app : AppM) (reg : List OverlayState) :
    TaskType → AppM × List OverlayState × Bool
  | .DropOverlay sel => (app, (remove_by_selector sel reg).2, false)
  | .CreateOverlay sel f =>
    match mut_by_selector sel reg with
    | some _ => (app, reg, false)
    | none =>
      match f app.ctx with
      | some (st, drops) =>
        ({ app with
            tasks := drops.foldl
              (fun q d => q.enqueue_at (.DropOverlay d.1) d.2) app.tasks,
            ctx := { app.ctx with next_id := app.ctx.next_id + 1 } },
          addOverlay st reg, true)
      | none => (app, reg, true)

/-- Execute a drained batch in order, returning the final state, the
final registry, and per-task "factory invoked" flags. -/
def runTasks (app : AppM) (reg : List OverlayState) :
    List TaskType → AppM × List OverlayState × List Bool
  | [] => (app, reg, [])
  | τ :: ts =>
    match runTask app reg τ with
    | (app', reg', inv) =>
      match runTasks app' reg' ts with
      | (app'', reg'', invs) => (app'', reg'', inv :: invs)

/-- One tick of the main loop (§5): drain every ready task, then
execute them in drained order; tasks the factories schedule go into
the remaining queue, eligible from the next tick. -/
def tick (app : AppM) (reg : List OverlayState) (now : ℚ) :
    AppM × List OverlayState × List Bool :=
  runTasks { app with tasks := (app.tasks.drain_ready now).2 } reg
    ((app.tasks.drain_ready now).1.map DeferredTask.payload)

/-! ## Toast producer

`overlays/toast.rs`.  The font-sizing calls (`app.fc.get_text_size`)
and `CanvasBuilder` are out-of-scope collaborators (§1, §6); they are
the `fc` and `canvas_ok` oracles of `FactoryCtx`.  The canvas drawing
itself produces the backend, which the model does not track. -/

/-- `TOAST_NAME` from `overlays/toast.rs`. -/
def TOAST_NAME : String := "toast"

/-- `PIXELS_TO_METERS` from `overlays/toast.rs`: 1/2000. -/
def PIXELS_TO_METERS : ℚ := 1 / 2000

/-- `Z_ORDER_TOAST`: the render-order key for toasts; its numeric value
is in the absent `backend/overlay.rs`, so it is modelled as an
unspecified fixed constant. -/
def Z_ORDER_TOAST : Int := 100

/-- The `Toast` record from `overlays/toast.rs` (f32 fields as ℚ). -/
structure ToastM where
  title : String
  body : String
  opacity : ℚ := 1
  timeout : ℚ := 3
  sound : Bool := false
  topic : ToastTopic

/-- `Toast::new`: defaults opacity 1.0, timeout 3.0, no sound. -/
def ToastM.new (topic : ToastTopic) (title body : String) : ToastM :=
  ⟨title, body, 1, 3, false, topic⟩

/-- `Toast::with_timeout`. -/
def ToastM.with_timeout (t : ToastM) (timeout : ℚ) : ToastM :=
  { t with timeout := timeout }

/-- The `match current_method` arm of `new_toast`: `Hide` builds
nothing; `Center` floats ahead of the head with `FollowHead`
lerp 0.1; `Watch` docks beside the configured watch hand. -/
def toastPlacement (t : ToastM) (ctx : FactoryCtx) :
    Option (VecQ × QuatQ × Positioning) :=
  match (idGet t.topic ctx.session.toast_topics).getD .Hide with
  | .Hide => none
  | .Center => some (⟨0, -(1/5), -(1/2)⟩, QuatQ.IDENTITY, .FollowHead (1/10))
  | .Watch =>
    let watch_pos := ctx.session.config.watch_pos.add
      ⟨-(5/1000), -(5/100), 2/100⟩
    match ctx.session.config.watch_hand with
    | .Left => some (watch_pos, ctx.session.config.watch_rot,
        .FollowHand 0 1)
    | .Right => some (⟨-watch_pos.x, watch_pos.y, watch_pos.z⟩,
        (ctx.session.config.watch_rot.mul QuatQ.rotX_PI).mul QuatQ.rotZ_PI,
        .FollowHand 1 1)

/-- `new_toast` from `overlays/toast.rs`: consult the per-topic display
method (absent topics default to `Hide`, building nothing), measure the
title (and body) through the font-sizing oracle, pad the width, build
the canvas, and return the overlay state: named "toast", visible,
scaled by the padded pixel width, z-ordered for toasts.  The fresh id
the Rust `Default` generator assigns at creation is modelled by the
context's id counter. -/
def new_toast (t : ToastM) (ctx : FactoryCtx) : Option OverlayState :=
  match toastPlacement t ctx with
  | none => none
  | some (spawn_point, spawn_rotation, positioning) =>
    let title := if t.title = "" then "Notification" else t.title
    let sized : Option (ℚ × ℚ) :=
      if t.body = "" then
        match ctx.fc title with
        | none => none
        | some (w, h) => some (w, h + 20)
      else
        match ctx.fc title, ctx.fc t.body with
        | some (w0, _), some (w1, h1) => some (max w0 w1, h1 + 50)
        | _, _ => none
    match sized with
    | none => none
    | some (w, _) =>
      if ctx.canvas_ok then
        some { id := ctx.next_id, name := TOAST_NAME, want_visible := true,
               spawn_scale := (w + 25 * 2) * PIXELS_TO_METERS,
               spawn_rotation := spawn_rotation, spawn_point := spawn_point,
               z_order := Z_ORDER_TOAST, positioning := positioning }
      else none

/-- The closure `Toast::submit_at` boxes into its `CreateOverlay` task:
build the toast, apply `auto_movement` (absent from the excerpts;
passed in as `am`), and schedule the drop of exactly the new entity's
id at the destroy instant. -/
def toastFactory (t : ToastM) (destroy_at : ℚ)
    (am : OverlayState → OverlayState) :
    FactoryCtx → Option (OverlayState × List (OverlaySelector × ℚ)) :=
  fun ctx =>
    match new_toast t ctx with
    | none => none
    | some st => some (am st, [(.Id (am st).id, destroy_at)])

/-- `Toast::submit_at` from `overlays/toast.rs`: enqueue a drop of any
previous "toast" by name at the submission instant, then a creation of
the new one at the same instant, whose factory schedules its own
timeout drop by id at `instant + timeout`.  The audio side effect is a
collaborator out of scope. -/
def ToastM.submit_at (t : ToastM) (am : OverlayState → OverlayState)
    (app : AppM) (instant : ℚ) : AppM :=
  ⟨app.ctx,
   (app.tasks.enqueue_at (.DropOverlay (.Name TOAST_NAME)) instant).enqueue_at
     (.CreateOverlay (.Name TOAST_NAME)
       (toastFactory t (instant + t.timeout) am)) instant,
   app.anchor, app.input_hmd⟩

/-! ## Theorems -/

theorem enqueueSorted_perm {α : Type} (τ : DeferredTask α) :
    ∀ l : List (DeferredTask α), (enqueueSorted τ l).Perm (τ :: l)
  | [] => List.Perm.refl _
  | t :: ts => by
    unfold enqueueSorted
    split
    · exact ((enqueueSorted_perm τ ts).cons t).trans (List.Perm.swap _ _ _)
    · exact List.Perm.refl _

theorem mem_enqueueSorted {α : Type} {τ x : DeferredTask α}
    {l : List (DeferredTask α)} (hx : x ∈ enqueueSorted τ l) :
    x = τ ∨ x ∈ l := by
  have := (enqueueSorted_perm τ l).mem_iff.mp hx
  simpa using this

theorem pairwise_enqueueSorted {α : Type} {τ : DeferredTask α} :
    ∀ {l : List (DeferredTask α)}, l.Pairwise taskOrder →
      (∀ t ∈ l, t.seq < τ.seq) → (enqueueSorted τ l).Pairwise taskOrder
  | [], _, _ => List.pairwise_singleton _ _
  | t :: ts, hl, hseq => by
    rw [List.pairwise_cons] at hl
    unfold enqueueSorted
    split
    · rename_i hle
      rw [List.pairwise_cons]
      refine ⟨fun x hx => ?_, pairwise_enqueueSorted hl.2
        (fun u hu => hseq u (List.mem_cons_of_mem _ hu))⟩
      rcases mem_enqueueSorted hx with rfl | hx
      · rcases lt_or_eq_of_le hle with h | h
        · exact Or.inl h
        · exact Or.inr ⟨h, hseq t (List.mem_cons_self _ _)⟩
      · exact hl.1 x hx
    · rename_i hgt
      push_neg at hgt
      rw [List.pairwise_cons]
      refine ⟨fun x hx => ?_, List.pairwise_cons.mpr hl⟩
      rcases List.mem_cons.mp hx with rfl | hx
      · exact Or.inl hgt
      · have hx' := hl.1 x hx
        rcases hx' with h | h
        · exact Or.inl (hgt.trans h)
        · exact Or.inl (h.1 ▸ hgt)

theorem containerInv_empty {α : Type} : ContainerInv (TaskContainer.empty (α := α)) :=
  ⟨List.Pairwise.nil, by intro τ h; simp [TaskContainer.empty] at h⟩

theorem containerInv_enqueue_at {α : Type} {c : TaskContainer α}
    (h : ContainerInv c) (kind : α) (instant : ℚ) :
    ContainerInv (c.enqueue_at kind instant) := by
  constructor
  · exact pairwise_enqueueSorted h.sorted (fun t ht => h.fresh t ht)
  · intro τ hτ
    rcases mem_enqueueSorted hτ with rfl | hτ
    · exact Nat.lt_succ_self _
    · exact (h.fresh τ hτ).trans (Nat.lt_succ_self _)

theorem containerInv_foldl {α : Type} (entries : List (ℚ × α)) :
    ∀ c : TaskContainer α, ContainerInv c →
      ContainerInv (entries.foldl (fun c e => c.enqueue_at e.2 e.1) c) := by
  induction entries with
  | nil => intro c h; exact h
  | cons e es ih =>
    intro c h
    exact ih _ (containerInv_enqueue_at h e.2 e.1)

theorem containerInv_build {α : Type} (entries : List (ℚ × α)) :
    ContainerInv (buildContainer entries) :=
  containerInv_foldl entries _ containerInv_empty

theorem buildContainer_nextSeq_foldl {α : Type} (entries : List (ℚ × α)) :
    ∀ c : TaskContainer α,
      (entries.foldl (fun c e => c.enqueue_at e.2 e.1) c).nextSeq
        = c.nextSeq + entries.length := by
  induction entries with
  | nil => intro c; simp
  | cons e es ih =>
    intro c
    rw [List.foldl_cons, ih]
    simp [TaskContainer.enqueue_at]
    omega

theorem buildContainer_tasks_foldl {α : Type} (entries : List (ℚ × α)) :
    ∀ c : TaskContainer α,
      ((entries.foldl (fun c e => c.enqueue_at e.2 e.1) c).tasks).Perm
        (((entries.enumFrom c.nextSeq).map
            (fun p => (⟨p.2.1, p.1, p.2.2⟩ : DeferredTask α))) ++ c.tasks) := by
  induction entries with
  | nil => intro c; simp
  | cons e es ih =>
    intro c
    rw [List.foldl_cons]
    refine (ih _).trans ?_
    have h1 : (c.enqueue_at e.2 e.1).tasks.Perm
        ((⟨e.1, c.nextSeq, e.2⟩ : DeferredTask α) :: c.tasks) :=
      enqueueSorted_perm _ _
    have h2 : (c.enqueue_at e.2 e.1).nextSeq = c.nextSeq + 1 := rfl
    rw [h2]
    refine ((List.Perm.refl _).append h1).trans ?_
    simp only [List.enumFrom_cons, List.map_cons]
    rw [List.cons_append]
    exact List.perm_middle

/-- Tasks left behind by `drain_ready` on a sorted queue are all
strictly later than `now`. -/
theorem dropWhile_not_ready {α : Type} (now : ℚ) :
    ∀ {l : List (DeferredTask α)}, l.Pairwise taskOrder →
      ∀ x ∈ l.dropWhile (fun τ => decide (τ.time ≤ now)), now < x.time := by
  intro l
  induction l with
  | nil => intro _ x hx; simp at hx
  | cons t ts ih =>
    intro hl x hx
    rw [List.pairwise_cons] at hl
    by_cases h : t.time ≤ now
    · rw [List.dropWhile_cons_of_pos (by simpa using h)] at hx
      exact ih hl.2 x hx
    · rw [List.dropWhile_cons_of_neg (by simpa using h)] at hx
      push_neg at h
      rcases List.mem_cons.mp hx with rfl | hx
      · exact h
      · rcases hl.1 x hx with hlt | ⟨heq, _⟩
        · exact h.trans hlt
        · exact heq ▸ h

theorem mem_takeWhile_ready {α : Type} (now : ℚ) :
    ∀ {l : List (DeferredTask α)},
      ∀ x ∈ l.takeWhile (fun τ => decide (τ.time ≤ now)), x.time ≤ now := by
  intro l
  induction l with
  | nil => intro x hx; simp at hx
  | cons t ts ih =>
    intro x hx
    by_cases h : t.time ≤ now
    · rw [List.takeWhile_cons_of_pos (by simpa using h)] at hx
      rcases List.mem_cons.mp hx with rfl | hx
      · exact h
      · exact ih x hx
    · rw [List.takeWhile_cons_of_neg (by simpa using h)] at hx
      simp at hx

/-- C3: (Scheduler ordering) for every sequence of `enqueue_at` calls,
`drain_ready now` removes and returns exactly the tasks whose not-before
instant is ≤ now — the returned prefix and the remaining queue partition
the task list, every returned task is ready, every remaining task is
strictly later — in non-decreasing not-before order regardless of
enqueue order, and among tasks with equal not-before instants in FIFO
enqueue order (lower sequence number first); the queue holds exactly
the enqueued tasks with sequence numbers in enqueue order. -/
theorem drain_ready_spec {α : Type} (entries : List (ℚ × α)) (now : ℚ) :
    ((buildContainer entries).drain_ready now).1
        ++ ((buildContainer entries).drain_ready now).2.tasks
        = (buildContainer entries).tasks
    ∧ (∀ τ ∈ ((buildContainer entries).drain_ready now).1, τ.time ≤ now)
    ∧ (∀ τ ∈ ((buildContainer entries).drain_ready now).2.tasks, now < τ.time)
    ∧ (∀ τ, τ ∈ ((buildContainer entries).drain_ready now).1
        ↔ τ ∈ (buildContainer entries).tasks ∧ τ.time ≤ now)
    ∧ ((buildContainer entries).drain_ready now).1.Pairwise
        (fun a b => a.time ≤ b.time)
    ∧ ((buildContainer entries).drain_ready now).1.Pairwise
        (fun a b => a.time = b.time → a.seq < b.seq)
    ∧ ((buildContainer entries).tasks).Perm
        ((entries.enumFrom 0).map (fun p => (⟨p.2.1, p.1, p.2.2⟩ : DeferredTask α))) := by
  have hinv := containerInv_build entries
  have hsplit : ((buildContainer entries).drain_ready now).1
      ++ ((buildContainer entries).drain_ready now).2.tasks
      = (buildContainer entries).tasks := by
    simp [TaskContainer.drain_ready, List.takeWhile_append_dropWhile]
  have hready : ∀ τ ∈ ((buildContainer entries).drain_ready now).1, τ.time ≤ now := by
    intro τ hτ
    exact mem_takeWhile_ready now τ hτ
  have hlate : ∀ τ ∈ ((buildContainer entries).drain_ready now).2.tasks, now < τ.time := by
    intro τ hτ
    exact dropWhile_not_ready now hinv.sorted τ hτ
  refine ⟨hsplit, hready, hlate, ?_, ?_, ?_, ?_⟩
  · intro τ
    constructor
    · intro hτ
      refine ⟨?_, hready τ hτ⟩
      rw [← hsplit]
      exact List.mem_append_left _ hτ
    · rintro ⟨hmem, htime⟩
      rw [← hsplit] at hmem
      rcases List.mem_append.mp hmem with h | h
      · exact h
      · exact absurd htime (not_le.mpr (hlate τ h))
  · have hsub : ((buildContainer entries).drain_ready now).1.Sublist
        (buildContainer entries).tasks := by
      simpa [TaskContainer.drain_ready] using
        List.takeWhile_sublist (l := (buildContainer entries).tasks)
          (p := fun τ => decide (τ.time ≤ now))
    exact ((hinv.sorted.sublist hsub).imp (fun hab => by
      rcases hab with h | ⟨h, _⟩
      · exact le_of_lt h
      · exact le_of_eq h))
  · have hsub : ((buildContainer entries).drain_ready now).1.Sublist
        (buildContainer entries).tasks := by
      simpa [TaskContainer.drain_ready] using
        List.takeWhile_sublist (l := (buildContainer entries).tasks)
          (p := fun τ => decide (τ.time ≤ now))
    exact ((hinv.sorted.sublist hsub).imp (fun hab heq => by
      rcases hab with h | ⟨_, h⟩
      · exact absurd heq (ne_of_lt h)
      · exact h))
  · have := buildContainer_tasks_foldl entries TaskContainer.empty
    simpa [buildContainer, TaskContainer.empty, List.enum] using this

theorem find?_of_first {p : OverlayState → Bool} :
    ∀ (l₁ : List OverlayState) (o : OverlayState) (l₂ : List OverlayState),
      (∀ e ∈ l₁, p e = false) → p o = true →
      (l₁ ++ o :: l₂).find? p = some o
  | [], o, l₂, _, hp => by simp [List.find?_cons, hp]
  | a :: l₁, o, l₂, h, hp => by
    have ha : p a = false := h a (List.mem_cons_self _ _)
    simp only [List.cons_append, List.find?_cons, ha]
    exact find?_of_first l₁ o l₂ (fun e he => h e (List.mem_cons_of_mem _ he)) hp

theorem eraseP_of_first {p : OverlayState → Bool} :
    ∀ (l₁ : List OverlayState) (o : OverlayState) (l₂ : List OverlayState),
      (∀ e ∈ l₁, p e = false) → p o = true →
      (l₁ ++ o :: l₂).eraseP p = l₁ ++ l₂
  | [], o, l₂, _, hp => by simp [List.eraseP_cons, hp]
  | a :: l₁, o, l₂, h, hp => by
    have ha : p a = false := h a (List.mem_cons_self _ _)
    rw [List.cons_append, List.eraseP_cons, ha,
      eraseP_of_first l₁ o l₂ (fun e he => h e (List.mem_cons_of_mem _ he)) hp]
    rfl

/-- C7: (Selector resolution and absence semantics) on a registry with
distinct ids: `remove_by_selector` with `Id i` removes and returns
exactly the entity keyed by `i` (all others keep their places); with
`Name n` it removes and returns the first entity in iteration order
whose name equals `n`; when no entity matches, the remove and the
lookup return `none` — an explicit absent value — and the registry is
unchanged. -/
theorem remove_by_selector_spec (c : List OverlayState) (i : Nat) (n : String)
    (hids : (c.map OverlayState.id).Nodup) :
    (∀ o ∈ c, o.id = i →
        (remove_by_selector (.Id i) c).1 = some o
        ∧ ∃ l₁ l₂, c = l₁ ++ o :: l₂ ∧ (∀ e ∈ l₁, e.id ≠ i)
            ∧ (remove_by_selector (.Id i) c).2 = l₁ ++ l₂)
    ∧ ((∀ o ∈ c, o.id ≠ i) →
        remove_by_selector (.Id i) c = (none, c)
        ∧ mut_by_selector (.Id i) c = none)
    ∧ (∀ (l₁ : List OverlayState) (o : OverlayState) (l₂ : List OverlayState),
        c = l₁ ++ o :: l₂ → (∀ e ∈ l₁, e.name ≠ n) → o.name = n →
        (remove_by_selector (.Name n) c).1 = some o
        ∧ (remove_by_selector (.Name n) c).2 = l₁ ++ l₂)
    ∧ ((∀ o ∈ c, o.name ≠ n) →
        remove_by_selector (.Name n) c = (none, c)
        ∧ mut_by_selector (.Name n) c = none) := by
  refine ⟨?_, ?_, ?_, ?_⟩
  · intro o ho hoi
    obtain ⟨l₁, l₂, rfl⟩ := List.append_of_mem ho
    have hnotin : o.id ∉ l₁.map OverlayState.id := by
      rw [List.map_append, List.map_cons] at hids
      have := (List.nodup_append.mp hids).2.2
      intro hmem
      exact this hmem (List.mem_cons_self _ _)
    have hpre : ∀ e ∈ l₁, (e.id == i) = false := by
      intro e he
      rw [beq_eq_false_iff_ne]
      intro h
      exact hnotin (by
        rw [hoi, ← h]
        exact List.mem_map_of_mem _ he)
    refine ⟨?_, l₁, l₂, rfl, ?_, ?_⟩
    · simpa [remove_by_selector] using
        find?_of_first l₁ o l₂ hpre (by simp [hoi])
    · intro e he h
      exact (beq_eq_false_iff_ne.mp (hpre e he)) (h ▸ rfl)
    · simpa [remove_by_selector] using
        eraseP_of_first l₁ o l₂ hpre (by simp [hoi])
  · intro habs
    have hfind : c.find? (fun o => o.id == i) = none := by
      rw [List.find?_eq_none]
      intro o ho
      simpa using habs o ho
    have herase : c.eraseP (fun o => o.id == i) = c :=
      List.eraseP_of_forall_not (fun o ho => by simpa using habs o ho)
    constructor
    · simp [remove_by_selector, hfind, herase]
    · simp [mut_by_selector, get_by_id, hfind]
  · rintro l₁ o l₂ rfl hpre hon
    have hpre' : ∀ e ∈ l₁, (e.name == n) = false := by
      intro e he
      rw [beq_eq_false_iff_ne]
      exact hpre e he
    have hfind : (l₁ ++ o :: l₂).find? (fun e => e.name == n) = some o :=
      find?_of_first l₁ o l₂ hpre' (by simp [hon])
    have hnotin : o.id ∉ l₁.map OverlayState.id := by
      rw [List.map_append, List.map_cons] at hids
      have := (List.nodup_append.mp hids).2.2
      intro hmem
      exact this hmem (List.mem_cons_self _ _)
    have hpreid : ∀ e ∈ l₁, (e.id == o.id) = false := by
      intro e he
      rw [beq_eq_false_iff_ne]
      intro h
      exact hnotin (h ▸ List.mem_map_of_mem _ he)
    constructor
    · simp [remove_by_selector, hfind]
    · simp only [remove_by_selector, hfind]
      exact eraseP_of_first l₁ o l₂ hpreid (by simp)
  · intro habs
    have hfind : c.find? (fun o => o.name == n) = none := by
      rw [List.find?_eq_none]
      intro o ho
      simpa using habs o ho
    constructor
    · simp [remove_by_selector, hfind]
    · simp [mut_by_selector, get_by_name, hfind]

/-- Witness for C7 at a concrete registry: a lookup of an absent id
misses explicitly and leaves the registry unchanged. -/
theorem remove_by_selector_spec_witness :
    remove_by_selector (.Id 9)
        [{ id := 1, name := "a" }, { id := 2, name := "b" }]
      = (none, [{ id := 1, name := "a" }, { id := 2, name := "b" }])
    ∧ mut_by_selector (.Id 9)
        [{ id := 1, name := "a" }, { id := 2, name := "b" }] = none :=
  (remove_by_selector_spec
      [{ id := 1, name := "a" }, { id := 2, name := "b" }] 9 "b"
      (by decide)).2.1 (by decide)

theorem dotR_comm (a b : Vec3R) : dotR a b = dotR b a := by
  simp [dotR]; ring

theorem dotR_scale_left (s : ℝ) (a b : Vec3R) :
    dotR (scaleR s a) b = s * dotR a b := by
  simp [dotR, scaleR]; ring

theorem dotR_cross_left (a b : Vec3R) : dotR (crossR a b) a = 0 := by
  simp [dotR, crossR]; ring

theorem dotR_cross_right (a b : Vec3R) : dotR (crossR a b) b = 0 := by
  simp [dotR, crossR]; ring

theorem cross_lagrange (a b : Vec3R) :
    dotR (crossR a b) (crossR a b) = dotR a a * dotR b b - dotR a b ^ 2 := by
  simp [dotR, crossR]; ring

theorem cross_triple (c u : Vec3R) :
    crossR c (crossR u c) = subR (scaleR (dotR c c) u) (scaleR (dotR c u) c) := by
  simp [crossR, subR, scaleR, dotR]
  refine ⟨by ring, by ring, by ring⟩

theorem crossR_scale_right (s : ℝ) (a b : Vec3R) :
    crossR a (scaleR s b) = scaleR s (crossR a b) := by
  simp [crossR, scaleR]
  refine ⟨by ring, by ring, by ring⟩

theorem dotR_self_nonneg (v : Vec3R) : 0 ≤ dotR v v := by
  simp only [dotR]
  nlinarith [sq_nonneg v.x, sq_nonneg v.y, sq_nonneg v.z]

theorem dotR_self_eq_zero {v : Vec3R} : dotR v v = 0 ↔ v = zeroV := by
  constructor
  · intro h
    simp only [dotR] at h
    have hx : v.x = 0 := by nlinarith [sq_nonneg v.x, sq_nonneg v.y, sq_nonneg v.z]
    have hy : v.y = 0 := by nlinarith [sq_nonneg v.x, sq_nonneg v.y, sq_nonneg v.z]
    have hz : v.z = 0 := by nlinarith [sq_nonneg v.x, sq_nonneg v.y, sq_nonneg v.z]
    cases v
    simp_all [zeroV]
  · rintro rfl
    simp [dotR, zeroV]

theorem lengthR_nonneg (v : Vec3R) : 0 ≤ lengthR v := Real.sqrt_nonneg _

theorem lengthR_eq_zero {v : Vec3R} : lengthR v = 0 ↔ v = zeroV := by
  rw [lengthR, Real.sqrt_eq_zero (dotR_self_nonneg v), dotR_self_eq_zero]

theorem lengthR_sq (v : Vec3R) : lengthR v ^ 2 = dotR v v := by
  rw [lengthR, Real.sq_sqrt (dotR_self_nonneg v)]

theorem lengthR_scale (s : ℝ) (v : Vec3R) :
    lengthR (scaleR s v) = |s| * lengthR v := by
  rw [lengthR, lengthR]
  have h : dotR (scaleR s v) (scaleR s v) = s ^ 2 * dotR v v := by
    simp [dotR, scaleR]; ring
  rw [h, Real.sqrt_mul (sq_nonneg s), Real.sqrt_sq_eq_abs]

theorem lengthR_normalize {v : Vec3R} (hv : v ≠ zeroV) :
    lengthR (normalizeR v) = 1 := by
  have hlen : lengthR v ≠ 0 := fun h => hv (lengthR_eq_zero.mp h)
  rw [normalizeR, lengthR_scale, abs_inv,
    abs_of_nonneg (lengthR_nonneg v), inv_mul_cancel₀ hlen]

theorem dotR_normalize_self {v : Vec3R} (hv : v ≠ zeroV) :
    dotR (normalizeR v) (normalizeR v) = 1 := by
  rw [← lengthR_sq, lengthR_normalize hv, one_pow]

theorem normalizeR_ne_zero {v : Vec3R} (hv : v ≠ zeroV) :
    normalizeR v ≠ zeroV := by
  intro h
  have := lengthR_normalize hv
  rw [h] at this
  rw [lengthR_eq_zero.mpr rfl] at this
  exact one_ne_zero this.symm

theorem scaleR_one (v : Vec3R) : scaleR 1 v = v := by
  simp [scaleR]

theorem scaleR_zero (v : Vec3R) : scaleR 0 v = zeroV := by
  simp [scaleR, zeroV]

theorem subR_zeroV (v : Vec3R) : subR v zeroV = v := by
  simp [subR, zeroV]

theorem crossR_zero_right (u : Vec3R) : crossR u zeroV = zeroV := by
  simp [crossR, zeroV]

theorem scaleR_eq_zero {s : ℝ} {v : Vec3R} (hs : s ≠ 0)
    (h : scaleR s v = zeroV) : v = zeroV := by
  cases v
  simp only [scaleR, zeroV, Vec3R.mk.injEq] at h ⊢
  exact ⟨by rcases mul_eq_zero.mp h.1 with h' | h'; exact absurd h' hs; exact h',
    by rcases mul_eq_zero.mp h.2.1 with h' | h'; exact absurd h' hs; exact h',
    by rcases mul_eq_zero.mp h.2.2 with h' | h'; exact absurd h' hs; exact h'⟩

theorem dotR_scale_right (s : ℝ) (a b : Vec3R) :
    dotR a (scaleR s b) = s * dotR a b := by
  simp [dotR, scaleR]; ring

/-- C6 (amended): `snap_upright` passes the transform through exactly
unchanged when |x-axis · up| ≥ 0.2; when |x-axis · up| < 0.2 (and the
forward axis is neither zero nor parallel to up) the result keeps the
translation, its three columns are pairwise orthogonal and each has
the length of the original x-axis (uniform scale preserved), the
forward column is the normalised original forward axis at that scale,
and the up column is the normalised component of world-up orthogonal
to the forward axis — equal to world-up itself exactly when the
forward axis is orthogonal to (unit) world-up, but not in general. -/
theorem snap_upright_spec (t : Aff3) (u : Vec3R) :
    ((0.2 : ℝ) ≤ |dotR t.x_axis u| → snap_upright t u = t)
    ∧ (|dotR t.x_axis u| < (0.2 : ℝ) →
        crossR u t.z_axis ≠ zeroV →
        (snap_upright t u).translation = t.translation
        ∧ dotR (snap_upright t u).x_axis (snap_upright t u).y_axis = 0
        ∧ dotR (snap_upright t u).x_axis (snap_upright t u).z_axis = 0
        ∧ dotR (snap_upright t u).y_axis (snap_upright t u).z_axis = 0
        ∧ lengthR (snap_upright t u).x_axis = lengthR t.x_axis
        ∧ lengthR (snap_upright t u).y_axis = lengthR t.x_axis
        ∧ lengthR (snap_upright t u).z_axis = lengthR t.x_axis
        ∧ (snap_upright t u).z_axis
            = scaleR (lengthR t.x_axis) (normalizeR t.z_axis)
        ∧ (snap_upright t u).y_axis
            = scaleR (lengthR t.x_axis)
                (normalizeR (subR u
                  (scaleR (dotR u (normalizeR t.z_axis)) (normalizeR t.z_axis))))
        ∧ (dotR u t.z_axis = 0 → dotR u u = 1 →
            (snap_upright t u).y_axis = scaleR (lengthR t.x_axis) u)) := by
  constructor
  · intro h
    rw [snap_upright, if_neg (not_lt.mpr h)]
  · intro h hc
    have hz : t.z_axis ≠ zeroV := by
      intro hz
      rw [hz, crossR_zero_right] at hc
      exact hc rfl
    have hlz : lengthR t.z_axis ≠ 0 := fun h' => hz (lengthR_eq_zero.mp h')
    set s := lengthR t.x_axis with hs
    set c := normalizeR t.z_axis with hcdef
    have hcc : dotR c c = 1 := dotR_normalize_self hz
    have hcz : c ≠ zeroV := normalizeR_ne_zero hz
    set x0 := crossR u c with hx0def
    have hx0 : x0 ≠ zeroV := by
      intro h0
      have : crossR u c = scaleR (lengthR t.z_axis)⁻¹ (crossR u t.z_axis) := by
        rw [hcdef, normalizeR, crossR_scale_right]
      rw [hx0def, this] at h0
      exact hc (scaleR_eq_zero (inv_ne_zero hlz) h0)
    set y0 := crossR c x0 with hy0def
    have hcx0 : dotR c x0 = 0 := by
      rw [hx0def, dotR_comm]
      exact dotR_cross_right u c
    have hy0 : y0 ≠ zeroV := by
      intro h0
      have hval : dotR y0 y0 = dotR x0 x0 := by
        rw [hy0def, cross_lagrange, hcc, hcx0]
        ring
      rw [h0] at hval
      have : dotR x0 x0 = 0 := by
        rw [← hval]
        exact dotR_self_eq_zero.mpr rfl
      exact hx0 (dotR_self_eq_zero.mp this)
    have hres : snap_upright t u
        = ⟨scaleR s (normalizeR x0), scaleR s (normalizeR y0), scaleR s c,
            t.translation⟩ := by
      rw [snap_upright, if_pos h]
    have hsnn : 0 ≤ s := lengthR_nonneg _
    have hdotxy : dotR (normalizeR x0) (normalizeR y0) = 0 := by
      rw [normalizeR, normalizeR, dotR_scale_left, dotR_scale_right]
      have : dotR x0 y0 = 0 := by
        rw [hy0def, dotR_comm]
        exact dotR_cross_right c x0
      rw [this]
      ring
    have hdotxz : dotR (normalizeR x0) c = 0 := by
      rw [normalizeR, dotR_scale_left]
      have : dotR x0 c = 0 := by
        rw [hx0def]
        exact dotR_cross_right u c
      rw [this]
      ring
    have hdotyz : dotR (normalizeR y0) c = 0 := by
      rw [normalizeR, dotR_scale_left]
      have : dotR y0 c = 0 := by
        rw [hy0def]
        exact dotR_cross_left c x0
      rw [this]
      ring
    refine ⟨by rw [hres], ?_, ?_, ?_, ?_, ?_, ?_, by rw [hres], ?_, ?_⟩
    · rw [hres]
      simp only [dotR_scale_left, dotR_scale_right, hdotxy]
      ring
    · rw [hres]
      simp only [dotR_scale_left, dotR_scale_right, hdotxz]
      ring
    · rw [hres]
      simp only [dotR_scale_left, dotR_scale_right, hdotyz]
      ring
    · rw [hres]
      simp only [lengthR_scale, lengthR_normalize hx0, abs_of_nonneg hsnn]
      ring
    · rw [hres]
      simp only [lengthR_scale, lengthR_normalize hy0, abs_of_nonneg hsnn]
      ring
    · rw [hres]
      simp only [lengthR_scale, lengthR_normalize hcz, abs_of_nonneg hsnn]
      have : lengthR c = 1 := lengthR_normalize hz
      rw [this]
      ring
    · rw [hres]
      have hy0eq : y0 = subR u (scaleR (dotR u c) c) := by
        rw [hy0def, hx0def, cross_triple, hcc, scaleR_one, dotR_comm]
      rw [hy0eq]
    · intro huz huu
      have hduc : dotR u c = 0 := by
        rw [hcdef, normalizeR, dotR_scale_right, huz]
        ring
      have hy0eq : y0 = u := by
        rw [hy0def, hx0def, cross_triple, hcc, scaleR_one, dotR_comm c u,
          hduc, scaleR_zero, subR_zeroV]
      have hnu : normalizeR u = u := by
        rw [normalizeR, lengthR, huu, Real.sqrt_one, inv_one, scaleR_one]
      rw [hres, hy0eq, hnu]

/-- Counterexample to C6 as stated: with world-up `(0,1,0)` and a head
transform whose x-axis `(1,0,0)` is orthogonal to up (so the snap
triggers) but whose forward axis `(0,3/5,4/5)` is pitched, the
reconstructed up column is `(0,4/5,-3/5)`, not world-up scaled by the
(unit) x-axis length. -/
theorem snap_upright_up_axis_counterexample :
    (snap_upright ⟨⟨1, 0, 0⟩, ⟨0, 1, 0⟩, ⟨0, 3/5, 4/5⟩, ⟨0, 0, 0⟩⟩ vecY).y_axis
      ≠ scaleR
          (lengthR (Aff3.x_axis ⟨⟨1, 0, 0⟩, ⟨0, 1, 0⟩, ⟨0, 3/5, 4/5⟩, ⟨0, 0, 0⟩⟩))
          vecY := by
  have hlx : lengthR ⟨1, 0, 0⟩ = 1 := by
    rw [lengthR]
    norm_num [dotR]
  have hlz : lengthR ⟨0, 3/5, 4/5⟩ = 1 := by
    rw [lengthR]
    have : dotR ⟨0, 3/5, 4/5⟩ ⟨0, 3/5, 4/5⟩ = 1 := by norm_num [dotR]
    rw [this, Real.sqrt_one]
  have hcn : normalizeR ⟨0, 3/5, 4/5⟩ = ⟨0, 3/5, 4/5⟩ := by
    rw [normalizeR, hlz, inv_one, scaleR_one]
  have hx0 : crossR vecY ⟨0, 3/5, 4/5⟩ = ⟨4/5, 0, 0⟩ := by
    norm_num [crossR, vecY]
  have hy0 : crossR ⟨0, 3/5, 4/5⟩ ⟨4/5, 0, 0⟩ = ⟨0, 16/25, -(12/25)⟩ := by
    norm_num [crossR]
  have hly : lengthR ⟨0, 16/25, -(12/25)⟩ = 4/5 := by
    rw [lengthR]
    have h1 : dotR ⟨0, 16/25, -(12/25)⟩ ⟨0, 16/25, -(12/25)⟩ = (4/5) ^ 2 := by
      norm_num [dotR]
    rw [h1, Real.sqrt_sq (by norm_num)]
  have hny : normalizeR ⟨0, 16/25, -(12/25)⟩ = ⟨0, 4/5, -(3/5)⟩ := by
    rw [normalizeR, hly]
    norm_num [scaleR]
  have hbranch : snap_upright ⟨⟨1, 0, 0⟩, ⟨0, 1, 0⟩, ⟨0, 3/5, 4/5⟩, ⟨0, 0, 0⟩⟩ vecY
      = ⟨scaleR 1 (normalizeR ⟨4/5, 0, 0⟩), scaleR 1 ⟨0, 4/5, -(3/5)⟩,
          scaleR 1 ⟨0, 3/5, 4/5⟩, ⟨0, 0, 0⟩⟩ := by
    rw [snap_upright, if_pos (by norm_num [dotR, vecY])]
    simp only [hlx, hcn, hx0, hy0, hny]
  rw [hbranch, hlx]
  intro hcontra
  simp only [scaleR_one, scaleR, vecY, Vec3R.mk.injEq] at hcontra
  have : (4 : ℝ)/5 = 1 := by
    have := hcontra.2.1
    simpa using this
  norm_num at this

/-- Witness for C6 at concrete inputs: a transform with x·up = 0.21
passes through unchanged, and a triggered transform keeps its
translation. -/
theorem snap_upright_spec_witness :
    snap_upright ⟨⟨0, 21/100, 0⟩, ⟨0, 1, 0⟩, ⟨0, 0, 1⟩, ⟨5, 6, 7⟩⟩ vecY
      = ⟨⟨0, 21/100, 0⟩, ⟨0, 1, 0⟩, ⟨0, 0, 1⟩, ⟨5, 6, 7⟩⟩
    ∧ (snap_upright ⟨⟨1, 0, 0⟩, ⟨0, 1, 0⟩, ⟨0, 0, 1⟩, ⟨5, 6, 7⟩⟩ vecY).translation
      = ⟨5, 6, 7⟩ :=
  ⟨(snap_upright_spec ⟨⟨0, 21/100, 0⟩, ⟨0, 1, 0⟩, ⟨0, 0, 1⟩, ⟨5, 6, 7⟩⟩ vecY).1
      (by
        simp only [dotR, vecY]
        rw [show ((0 : ℝ) * 0 + 21/100 * 1 + 0 * 0 : ℝ) = 21/100 by norm_num,
          abs_of_nonneg (by norm_num : (0 : ℝ) ≤ 21/100)]
        norm_num),
   ((snap_upright_spec ⟨⟨1, 0, 0⟩, ⟨0, 1, 0⟩, ⟨0, 0, 1⟩, ⟨5, 6, 7⟩⟩ vecY).2
      (by norm_num [dotR, vecY])
      (by norm_num [crossR, vecY, zeroV, Vec3R.mk.injEq])).1⟩

theorem applyToggle_name (a r : Bool) (o : OverlayState) :
    (applyToggle a r o).name = o.name := by
  rw [applyToggle]
  split <;> [skip; rfl]
  dsimp only
  split <;> rfl

theorem applyToggle_show_hide (a r : Bool) (o : OverlayState) :
    (applyToggle a r o).show_hide = o.show_hide := by
  rw [applyToggle]
  split <;> [skip; rfl]
  dsimp only
  split <;> rfl

theorem applyToggle_want_of_member {o : OverlayState} (h : o.show_hide = true)
    (a r : Bool) : (applyToggle a r o).want_visible = !a := by
  rw [applyToggle, if_pos h]
  dsimp only
  split <;> simp [resetState]

theorem applyToggle_of_nonmember {o : OverlayState} (h : o.show_hide = false)
    (a r : Bool) : applyToggle a r o = o := by
  rw [applyToggle, h]
  rfl

theorem applyWatchReset_name (a : Bool) (o : OverlayState) :
    (applyWatchReset a o).name = o.name := by
  rw [applyWatchReset]
  split <;> rfl

theorem applyWatchReset_show_hide (a : Bool) (o : OverlayState) :
    (applyWatchReset a o).show_hide = o.show_hide := by
  rw [applyWatchReset]
  split <;> rfl

theorem applyWatchReset_want (a : Bool) (o : OverlayState) :
    (applyWatchReset a o).want_visible
      = (o.want_visible || (!a && o.name == WATCH_NAME)) := by
  rw [applyWatchReset]
  split
  · rename_i h
    simp only [resetState, Bool.or_true, h]
  · rename_i h
    rw [Bool.not_eq_true] at h
    rw [h, Bool.or_false]

theorem showHideEntity_name (a r : Bool) (o : OverlayState) :
    (showHideEntity a r o).name = o.name := by
  rw [showHideEntity, applyWatchReset_name, applyToggle_name]

theorem showHideEntity_show_hide (a r : Bool) (o : OverlayState) :
    (showHideEntity a r o).show_hide = o.show_hide := by
  rw [showHideEntity, applyWatchReset_show_hide, applyToggle_show_hide]

theorem showHideEntity_want_member {o : OverlayState} (h : o.show_hide = true)
    (a r : Bool) : (showHideEntity a r o).want_visible = !a := by
  rw [showHideEntity, applyWatchReset_want, applyToggle_name,
    applyToggle_want_of_member h]
  cases a <;> simp

theorem showHideEntity_want_nonmember {o : OverlayState} (h : o.show_hide = false)
    (a r : Bool) : (showHideEntity a r o).want_visible
      = (o.want_visible || (!a && (o.name == WATCH_NAME))) := by
  rw [showHideEntity, applyToggle_of_nonmember h, applyWatchReset_want]

theorem show_hide_fst_ctx (app : AppM) (c : List OverlayState) :
    (show_hide app c).1.ctx = app.ctx := by
  rw [show_hide]
  dsimp only
  split <;> rfl

theorem show_hide_snd (app : AppM) (c : List OverlayState) :
    (show_hide app c).2
      = c.map (showHideEntity (anyShown c)
          app.ctx.session.config.realign_on_showhide) := rfl

/-- C4: (Show/hide broadcast postcondition) after `show_hide`, every
entity whose `show_hide` flag is set has `want_visible` equal to the
negation of the pre-call "any group member visible" scan; and when
nothing was visible, any entity named `watch` ends visible even if it
is not a group member. -/
theorem show_hide_broadcast_spec (app : AppM) (c : List OverlayState) :
    ∀ o' ∈ (show_hide app c).2,
      (o'.show_hide = true → o'.want_visible = !(anyShown c))
      ∧ (anyShown c = false → o'.name = WATCH_NAME → o'.want_visible = true) := by
  intro o' hmem
  rw [show_hide_snd] at hmem
  obtain ⟨o, ho, rfl⟩ := List.mem_map.mp hmem
  constructor
  · intro hsh
    rw [showHideEntity_show_hide] at hsh
    exact showHideEntity_want_member hsh _ _
  · intro hany hname
    rw [showHideEntity_name] at hname
    cases hsh : o.show_hide
    · rw [showHideEntity_want_nonmember hsh, hany, hname]
      simp
    · rw [showHideEntity_want_member hsh, hany]
      rfl

/-- Witness for C4: in a registry holding one visible group member and
a hidden non-member watch, the first post-call entity (the group
member) ends with `want_visible` the negation of the pre-call scan. -/
theorem show_hide_broadcast_spec_witness :
    ((show_hide
        ⟨{ session := { config := {}, toast_topics := [] },
            fc := fun _ => none, canvas_ok := true, next_id := 0 },
          TaskContainer.empty, ANCHOR_LOCAL, ANCHOR_LOCAL⟩
        [{ id := 1, name := "s", want_visible := true, show_hide := true },
         { id := 2, name := "watch", want_visible := false }]).2.headI).want_visible
      = !(anyShown
          [{ id := 1, name := "s", want_visible := true, show_hide := true },
           { id := 2, name := "watch", want_visible := false }]) :=
  (show_hide_broadcast_spec
      ⟨{ session := { config := {}, toast_topics := [] },
          fc := fun _ => none, canvas_ok := true, next_id := 0 },
        TaskContainer.empty, ANCHOR_LOCAL, ANCHOR_LOCAL⟩
      [{ id := 1, name := "s", want_visible := true, show_hide := true },
       { id := 2, name := "watch", want_visible := false }]
      ((show_hide
        ⟨{ session := { config := {}, toast_topics := [] },
            fc := fun _ => none, canvas_ok := true, next_id := 0 },
          TaskContainer.empty, ANCHOR_LOCAL, ANCHOR_LOCAL⟩
        [{ id := 1, name := "s", want_visible := true, show_hide := true },
         { id := 2, name := "watch", want_visible := false }]).2.headI)
      (by decide)).1 (by decide)

/-- C10: (show_hide frame effect) `show_hide` maps each entity through
`showHideEntity` and nothing else; an entity outside the show/hide
group and not named `watch` keeps its `want_visible` bit exactly; the
anchor is rewritten to the upright-snapped head transform composed
with the one-unit negative-Z translation exactly when no group member
was visible, and the whole app state is untouched otherwise. -/
theorem show_hide_frame_spec (app : AppM) (c : List OverlayState) :
    (show_hide app c).2
        = c.map (showHideEntity (anyShown c)
            app.ctx.session.config.realign_on_showhide)
    ∧ (∀ (r : Bool) (o : OverlayState), o.show_hide = false →
        o.name ≠ WATCH_NAME →
        (showHideEntity (anyShown c) r o).want_visible = o.want_visible)
    ∧ (anyShown c = true → (show_hide app c).1 = app)
    ∧ (anyShown c = false →
        (show_hide app c).1.anchor
          = affMul (snap_upright app.input_hmd vecY) ANCHOR_LOCAL) := by
  refine ⟨rfl, ?_, ?_, ?_⟩
  · intro r o hsh hname
    rw [showHideEntity_want_nonmember hsh, beq_eq_false_iff_ne.mpr hname]
    simp
  · intro h
    rw [show_hide]
    dsimp only
    rw [if_pos h]
  · intro h
    rw [show_hide]
    dsimp only
    rw [if_neg (by rw [h]; exact Bool.false_ne_true)]

/-- Witness for C10: with a visible group member present, the whole app
state (anchor included) passes through `show_hide` unchanged. -/
theorem show_hide_frame_spec_witness :
    (show_hide
        ⟨{ session := { config := {}, toast_topics := [] },
            fc := fun _ => none, canvas_ok := true, next_id := 0 },
          TaskContainer.empty, ANCHOR_LOCAL, ANCHOR_LOCAL⟩
        [{ id := 1, name := "s", want_visible := true, show_hide := true }]).1
      = ⟨{ session := { config := {}, toast_topics := [] },
            fc := fun _ => none, canvas_ok := true, next_id := 0 },
          TaskContainer.empty, ANCHOR_LOCAL, ANCHOR_LOCAL⟩ :=
  (show_hide_frame_spec
      ⟨{ session := { config := {}, toast_topics := [] },
          fc := fun _ => none, canvas_ok := true, next_id := 0 },
        TaskContainer.empty, ANCHOR_LOCAL, ANCHOR_LOCAL⟩
      [{ id := 1, name := "s", want_visible := true, show_hide := true }]).2.2.1
    (by decide)

theorem anyShown_map_hide (c : List OverlayState) (r : Bool) :
    anyShown (c.map (showHideEntity true r)) = false := by
  rw [anyShown, List.any_map, List.any_eq_false]
  intro o _
  simp only [Function.comp_apply]
  cases hsh : o.show_hide
  · simp [showHideEntity_show_hide, hsh]
  · simp [showHideEntity_show_hide, hsh, showHideEntity_want_member hsh]

theorem anyShown_map_show {c : List OverlayState} {o : OverlayState}
    (ho : o ∈ c) (hsh : o.show_hide = true) (r : Bool) :
    anyShown (c.map (showHideEntity false r)) = true := by
  rw [anyShown, List.any_eq_true]
  refine ⟨showHideEntity false r o, List.mem_map_of_mem _ ho, ?_⟩
  simp [showHideEntity_show_hide, hsh, showHideEntity_want_member hsh]

/-- C5 (amended): invoking `show_hide` twice with no intervening
changes sets every show/hide-group member's `want_visible` to the
pre-call "any group member visible" value — so members whose
visibility agreed with that consensus are restored, while an
individually hidden member of a visible group comes back visible
rather than restored — and every entity named `watch` ends visible
provided no watch-named entity is itself a group member. -/
theorem show_hide_twice_spec (app : AppM) (c : List OverlayState) :
    List.Forall₂ (fun o o' =>
        o'.name = o.name ∧ o'.show_hide = o.show_hide
        ∧ (o.show_hide = true → o'.want_visible = anyShown c))
      c (show_hide (show_hide app c).1 (show_hide app c).2).2
    ∧ ((∀ o ∈ c, o.name = WATCH_NAME → o.show_hide = false) →
        ∀ o' ∈ (show_hide (show_hide app c).1 (show_hide app c).2).2,
          o'.name = WATCH_NAME → o'.want_visible = true) := by
  have hsnd : (show_hide (show_hide app c).1 (show_hide app c).2).2
      = c.map (fun o =>
          showHideEntity (anyShown ((show_hide app c).2))
            ((show_hide app c).1.ctx.session.config.realign_on_showhide)
            (showHideEntity (anyShown c)
              app.ctx.session.config.realign_on_showhide o)) := by
    rw [show_hide_snd, show_hide_snd, List.map_map]
    rfl
  set r₁ := app.ctx.session.config.realign_on_showhide with hr₁
  set r₂ := (show_hide app c).1.ctx.session.config.realign_on_showhide with hr₂
  set a₂ := anyShown ((show_hide app c).2) with ha₂
  constructor
  · rw [hsnd, List.forall₂_map_right_iff, List.forall₂_same]
    intro o ho
    refine ⟨by rw [showHideEntity_name, showHideEntity_name],
      by rw [showHideEntity_show_hide, showHideEntity_show_hide], ?_⟩
    intro hsh
    cases hany : anyShown c
    · have hsh₁ : (showHideEntity false r₁ o).show_hide = true := by
        rw [showHideEntity_show_hide, hsh]
      have h2 : a₂ = true := by
        rw [ha₂, show_hide_snd, ← hr₁, hany]
        exact anyShown_map_show ho hsh r₁
      rw [showHideEntity_want_member hsh₁, h2]
      rfl
    · have hsh₁ : (showHideEntity true r₁ o).show_hide = true := by
        rw [showHideEntity_show_hide, hsh]
      have h2 : a₂ = false := by
        rw [ha₂, show_hide_snd, ← hr₁, hany]
        exact anyShown_map_hide c r₁
      rw [showHideEntity_want_member hsh₁, h2]
      rfl
  · intro hw o' hmem hname
    rw [hsnd] at hmem
    obtain ⟨o, ho, rfl⟩ := List.mem_map.mp hmem
    rw [showHideEntity_name, showHideEntity_name] at hname
    have hsh : o.show_hide = false := hw o ho hname
    have hsh₁ : (showHideEntity (anyShown c) r₁ o).show_hide = false := by
      rw [showHideEntity_show_hide, hsh]
    have hn₁ : (showHideEntity (anyShown c) r₁ o).name = o.name :=
      showHideEntity_name _ _ _
    rw [showHideEntity_want_nonmember hsh₁, hn₁, hname,
      showHideEntity_want_nonmember hsh, hname]
    simp only [beq_self_eq_true, Bool.and_true]
    cases hany : anyShown c
    · simp
    · have h2 : a₂ = false := by
        rw [ha₂, show_hide_snd, ← hr₁, hany]
        exact anyShown_map_hide c r₁
      rw [h2]
      simp

/-- C2: (Idempotent creation) two `CreateOverlay(ByName x, ·)` tasks
enqueued at the same instant into an x-free registry: after the tick
that drains both, exactly one entity named `x` exists — the one the
first factory built, appended to the registry — the first factory was
invoked and the second was not, and the app state advanced by exactly
one consumed id plus the drop tasks the first factory scheduled. -/
theorem create_overlay_idempotent
    (ctx : FactoryCtx) (anchor hmd : Aff3) (reg : List OverlayState)
    (f g : FactoryCtx → Option (OverlayState × List (OverlaySelector × ℚ)))
    (x : String) (t : ℚ) (st : OverlayState)
    (drops : List (OverlaySelector × ℚ))
    (hreg : ∀ o ∈ reg, o.name ≠ x)
    (hid : ∀ o ∈ reg, o.id ≠ st.id)
    (hf : f ctx = some (st, drops))
    (hst : st.name = x) :
    tick
      ⟨ctx,
        (TaskContainer.empty.enqueue_at
            (.CreateOverlay (.Name x) f) t).enqueue_at
          (.CreateOverlay (.Name x) g) t,
        anchor, hmd⟩ reg t
      = (⟨{ ctx with next_id := ctx.next_id + 1 },
          drops.foldl (fun q d => q.enqueue_at (.DropOverlay d.1) d.2)
            ⟨[], 2⟩,
          anchor, hmd⟩,
         reg ++ [st], [true, false])
    ∧ ((reg ++ [st]).filter (fun o => o.name == x)).length = 1 := by
  have hfind : reg.find? (fun o => o.name == x) = none :=
    List.find?_eq_none.mpr (fun o ho => by simpa using hreg o ho)
  have hany : (reg.any fun o => o.id == st.id) = false :=
    List.any_eq_false.mpr (fun o ho => by simpa using hid o ho)
  have hfind2 : (reg ++ [st]).find? (fun o => o.name == x) = some st :=
    find?_of_first reg st []
      (fun e he => beq_eq_false_iff_ne.mpr (hreg e he)) (by simp [hst])
  constructor
  · have htasks : ((TaskContainer.empty.enqueue_at
        (.CreateOverlay (.Name x) f) t).enqueue_at
          (.CreateOverlay (.Name x) g) t : TaskContainer TaskType)
        = ⟨[⟨t, 0, .CreateOverlay (.Name x) f⟩,
            ⟨t, 1, .CreateOverlay (.Name x) g⟩], 2⟩ := by
      simp [TaskContainer.empty, TaskContainer.enqueue_at, enqueueSorted]
    rw [htasks, tick]
    have hdrain : (⟨[⟨t, 0, .CreateOverlay (.Name x) f⟩,
          ⟨t, 1, .CreateOverlay (.Name x) g⟩], 2⟩ :
            TaskContainer TaskType).drain_ready t
        = ([⟨t, 0, .CreateOverlay (.Name x) f⟩,
            ⟨t, 1, .CreateOverlay (.Name x) g⟩], ⟨[], 2⟩) := by
      simp [TaskContainer.drain_ready]
    rw [hdrain]
    simp only [List.map_cons, List.map_nil, runTasks, runTask,
      mut_by_selector, get_by_name, hfind, hf, addOverlay, hany,
      Bool.false_eq_true, if_false, hfind2]
  · have hnil : reg.filter (fun o => o.name == x) = [] :=
      List.filter_eq_nil_iff.mpr
        (fun o ho => by simpa using hreg o ho)
    rw [List.filter_append, hnil]
    simp [List.filter, hst]

/-- Witness for C2 at concrete inputs: two same-tick creations of
"x" into an empty registry leave exactly one "x" entity; only the
first factory ran. -/
theorem create_overlay_idempotent_witness :
    tick
      ⟨⟨⟨{}, []⟩, fun _ => none, true, 0⟩,
        (TaskContainer.empty.enqueue_at
            (.CreateOverlay (.Name "x")
              (fun _ => some ({ id := 5, name := "x" }, []))) 2).enqueue_at
          (.CreateOverlay (.Name "x") (fun _ => none)) 2,
        ANCHOR_LOCAL, ANCHOR_LOCAL⟩ [] 2
      = (⟨⟨⟨{}, []⟩, fun _ => none, true, 1⟩, ⟨[], 2⟩, ANCHOR_LOCAL, ANCHOR_LOCAL⟩,
         [{ id := 5, name := "x" }], [true, false])
    ∧ (([] ++ [({ id := 5, name := "x" } : OverlayState)]).filter
        (fun (o : OverlayState) => o.name == "x")).length = 1 := by
  have h := create_overlay_idempotent
    ⟨⟨{}, []⟩, fun _ => none, true, 0⟩ ANCHOR_LOCAL ANCHOR_LOCAL []
    (fun _ => some ({ id := 5, name := "x" }, [])) (fun _ => none)
    "x" 2 { id := 5, name := "x" } []
    (fun o ho => absurd ho (List.not_mem_nil o))
    (fun o ho => absurd ho (List.not_mem_nil o))
    rfl rfl
  exact ⟨h.1.trans (by rfl), h.2⟩

/-- C1: (No race-kill) run the toast-like schedule: create A (named n)
at t0; at t1 enqueue drop-by-name(n) and then create B (same name,
fresh id); A's own factory scheduled drop-by-id(A) at t2 > t1.  After
the t2 tick, B is still registered and A is gone: the timeout drop by
identity never removes the replacement.  In general, removal by `Id`
removes only an entity whose id is exactly the selector's. -/
theorem drop_by_id_no_race_kill
    (ctx : FactoryCtx) (anchor hmd : Aff3) (reg : List OverlayState)
    (fA fB : FactoryCtx → Option (OverlayState × List (OverlaySelector × ℚ)))
    (n : String) (t0 t1 t2 : ℚ) (stA stB : OverlayState)
    (h12 : t1 < t2)
    (hreg_name : ∀ o ∈ reg, o.name ≠ n)
    (hreg_idA : ∀ o ∈ reg, o.id ≠ stA.id)
    (hreg_idB : ∀ o ∈ reg, o.id ≠ stB.id)
    (hAB : stA.id ≠ stB.id)
    (hA : ∀ c, fA c = some (stA, [(.Id stA.id, t2)]))
    (hB : ∀ c, fB c = some (stB, []))
    (hAn : stA.name = n) (hBn : stB.name = n) :
    (∀ s1 a1 s2 s3,
      s1 = tick
          ⟨ctx,
           TaskContainer.empty.enqueue_at (.CreateOverlay (.Name n) fA) t0,
           anchor, hmd⟩ reg t0 →
      a1 = (⟨s1.1.ctx,
          (s1.1.tasks.enqueue_at (.DropOverlay (.Name n)) t1).enqueue_at
            (.CreateOverlay (.Name n) fB) t1,
          s1.1.anchor, s1.1.input_hmd⟩ : AppM) →
      s2 = tick a1 s1.2.1 t1 →
      s3 = tick s2.1 s2.2.1 t2 →
      stB ∈ s3.2.1 ∧ stA ∉ s3.2.1)
    ∧ (∀ (i : Nat) (c : List OverlayState) (o : OverlayState),
        o ∈ c → o.id ≠ i → o ∈ (remove_by_selector (.Id i) c).2) := by
  have hne : ¬ (t2 ≤ t1) := not_le.mpr h12
  have hfr : reg.find? (fun o => o.name == n) = none :=
    List.find?_eq_none.mpr (fun o ho => by simpa using hreg_name o ho)
  have hanyA : (reg.any fun o => o.id == stA.id) = false :=
    List.any_eq_false.mpr (fun o ho => by simpa using hreg_idA o ho)
  have hanyB : (reg.any fun o => o.id == stB.id) = false :=
    List.any_eq_false.mpr (fun o ho => by simpa using hreg_idB o ho)
  have hfind2A : (reg ++ [stA]).find? (fun o => o.name == n) = some stA :=
    find?_of_first reg stA []
      (fun e he => beq_eq_false_iff_ne.mpr (hreg_name e he)) (by simp [hAn])
  have heraseA : (reg ++ [stA]).eraseP (fun e => e.id == stA.id) = reg ++ [] :=
    eraseP_of_first reg stA []
      (fun e he => beq_eq_false_iff_ne.mpr (hreg_idA e he)) (by simp)
  have hdropfinal : (reg ++ [stB]).eraseP (fun o => o.id == stA.id)
      = reg ++ [stB] := by
    refine List.eraseP_of_forall_not (fun o ho => ?_)
    rcases List.mem_append.mp ho with h | h
    · simpa using hreg_idA o h
    · rw [List.mem_singleton] at h
      subst h
      simpa using (Ne.symm hAB)
  constructor
  · intro s1 a1 s2 s3 hs1 ha1 hs2 hs3
    have e1 : s1 = (⟨{ ctx with next_id := ctx.next_id + 1 },
        ⟨[⟨t2, 1, .DropOverlay (.Id stA.id)⟩], 2⟩, anchor, hmd⟩,
        reg ++ [stA], [true]) := by
      rw [hs1]
      have hd0 : ((⟨[⟨t0, 0, .CreateOverlay (.Name n) fA⟩], 1⟩ :
          TaskContainer TaskType).drain_ready t0)
          = ([⟨t0, 0, .CreateOverlay (.Name n) fA⟩], ⟨[], 1⟩) := by
        simp [TaskContainer.drain_ready]
      rw [show TaskContainer.empty.enqueue_at
          (TaskType.CreateOverlay (.Name n) fA) t0
          = (⟨[⟨t0, 0, .CreateOverlay (.Name n) fA⟩], 1⟩ :
              TaskContainer TaskType) from rfl, tick, hd0]
      simp only [List.map_cons, List.map_nil, runTasks, runTask,
        mut_by_selector, get_by_name, hfr, hA, addOverlay, hanyA,
        Bool.false_eq_true, if_false, List.foldl_cons, List.foldl_nil,
        TaskContainer.enqueue_at, enqueueSorted]
    have e2 : a1 = ⟨{ ctx with next_id := ctx.next_id + 1 },
        ⟨[⟨t1, 2, .DropOverlay (.Name n)⟩,
          ⟨t1, 3, .CreateOverlay (.Name n) fB⟩,
          ⟨t2, 1, .DropOverlay (.Id stA.id)⟩], 4⟩, anchor, hmd⟩ := by
      rw [ha1, e1]
      simp [TaskContainer.enqueue_at, enqueueSorted, hne]
    have e3 : s2 = (⟨{ ctx with next_id := ctx.next_id + 1 + 1 },
        ⟨[⟨t2, 1, .DropOverlay (.Id stA.id)⟩], 4⟩, anchor, hmd⟩,
        reg ++ [stB], [false, true]) := by
      rw [hs2, e2, e1]
      have hd1 : ((⟨[⟨t1, 2, .DropOverlay (.Name n)⟩,
            ⟨t1, 3, .CreateOverlay (.Name n) fB⟩,
            ⟨t2, 1, .DropOverlay (.Id stA.id)⟩], 4⟩ :
          TaskContainer TaskType).drain_ready t1)
          = ([⟨t1, 2, .DropOverlay (.Name n)⟩,
              ⟨t1, 3, .CreateOverlay (.Name n) fB⟩],
             ⟨[⟨t2, 1, .DropOverlay (.Id stA.id)⟩], 4⟩) := by
        simp [TaskContainer.drain_ready, hne]
      rw [tick, hd1]
      simp only [List.map_cons, List.map_nil, runTasks, runTask,
        remove_by_selector, hfind2A, heraseA, List.append_nil,
        mut_by_selector, get_by_name, hfr, hB, addOverlay, hanyB,
        Bool.false_eq_true, if_false, List.foldl_nil]
    have e4 : s3 = (⟨{ ctx with next_id := ctx.next_id + 1 + 1 },
        ⟨[], 4⟩, anchor, hmd⟩, reg ++ [stB], [false]) := by
      rw [hs3, e3]
      have hd2 : ((⟨[⟨t2, 1, .DropOverlay (.Id stA.id)⟩], 4⟩ :
          TaskContainer TaskType).drain_ready t2)
          = ([⟨t2, 1, .DropOverlay (.Id stA.id)⟩], ⟨[], 4⟩) := by
        simp [TaskContainer.drain_ready]
      rw [tick, hd2]
      simp only [List.map_cons, List.map_nil, runTasks, runTask,
        remove_by_selector, hdropfinal]
    rw [e4]
    constructor
    · exact List.mem_append_right _ (List.mem_singleton.mpr rfl)
    · intro hmem
      rcases List.mem_append.mp hmem with h | h
      · exact hreg_idA stA h rfl
      · rw [List.mem_singleton] at h
        exact hAB (congrArg OverlayState.id h)
  · intro i c o ho hne2
    exact (List.mem_eraseP_of_neg (by simpa using hne2)).mpr ho

/-- Witness for C1 at concrete inputs: the scenario hypotheses hold for
an empty initial registry and two concrete toast-like factories, and
the by-id removal conjunct applied to a mismatched id keeps the
entity. -/
theorem drop_by_id_no_race_kill_witness :
    ({ id := 3, name := "k" } : OverlayState)
      ∈ (remove_by_selector (.Id 9) [{ id := 3, name := "k" }]).2 :=
  (drop_by_id_no_race_kill ⟨⟨{}, []⟩, fun _ => none, true, 0⟩
      ANCHOR_LOCAL ANCHOR_LOCAL []
      (fun _ => some ({ id := 10, name := "toast" }, [(.Id 10, 5)]))
      (fun _ => some ({ id := 11, name := "toast" }, []))
      "toast" 0 1 5 { id := 10, name := "toast" } { id := 11, name := "toast" }
      (by norm_num)
      (fun o ho => absurd ho (List.not_mem_nil o))
      (fun o ho => absurd ho (List.not_mem_nil o))
      (fun o ho => absurd ho (List.not_mem_nil o))
      (by decide) (fun c => rfl) (fun c => rfl) rfl rfl).2
    9 [{ id := 3, name := "k" }] { id := 3, name := "k" }
    (List.mem_singleton.mpr rfl) (by decide)

/-- Counterexample to C5 as stated: two group members, one visible and
one individually hidden; after toggling twice both are visible, so the
individually hidden member's `want_visible` is not restored. -/
theorem show_hide_symmetry_counterexample :
    ((show_hide
        (show_hide
          ⟨{ session := { config := {}, toast_topics := [] },
              fc := fun _ => none, canvas_ok := true, next_id := 0 },
            TaskContainer.empty, ANCHOR_LOCAL, ANCHOR_LOCAL⟩
          [{ id := 1, name := "a", want_visible := true, show_hide := true },
           { id := 2, name := "b", want_visible := false, show_hide := true }]).1
        (show_hide
          ⟨{ session := { config := {}, toast_topics := [] },
              fc := fun _ => none, canvas_ok := true, next_id := 0 },
            TaskContainer.empty, ANCHOR_LOCAL, ANCHOR_LOCAL⟩
          [{ id := 1, name := "a", want_visible := true, show_hide := true },
           { id := 2, name := "b", want_visible := false, show_hide := true }]).2).2).map
      OverlayState.want_visible = [true, true]
    ∧ [({ id := 1, name := "a", want_visible := true, show_hide := true } :
          OverlayState),
       { id := 2, name := "b", want_visible := false, show_hide := true }].map
        OverlayState.want_visible = [true, false] := by
  constructor
  · rfl
  · rfl

/-- Witness for the amended C5 at concrete inputs: a registry holding
only a non-group watch entity; after two toggles the watch is
visible. -/
theorem show_hide_twice_spec_witness :
    (((show_hide
        (show_hide
          ⟨{ session := { config := {}, toast_topics := [] },
              fc := fun _ => none, canvas_ok := true, next_id := 0 },
            TaskContainer.empty, ANCHOR_LOCAL, ANCHOR_LOCAL⟩
          [{ id := 1, name := "watch" }]).1
        (show_hide
          ⟨{ session := { config := {}, toast_topics := [] },
              fc := fun _ => none, canvas_ok := true, next_id := 0 },
            TaskContainer.empty, ANCHOR_LOCAL, ANCHOR_LOCAL⟩
          [{ id := 1, name := "watch" }]).2).2).headI).want_visible = true :=
  (show_hide_twice_spec
      ⟨{ session := { config := {}, toast_topics := [] },
          fc := fun _ => none, canvas_ok := true, next_id := 0 },
        TaskContainer.empty, ANCHOR_LOCAL, ANCHOR_LOCAL⟩
      [{ id := 1, name := "watch" }]).2
    (by decide)
    (((show_hide
        (show_hide
          ⟨{ session := { config := {}, toast_topics := [] },
              fc := fun _ => none, canvas_ok := true, next_id := 0 },
            TaskContainer.empty, ANCHOR_LOCAL, ANCHOR_LOCAL⟩
          [{ id := 1, name := "watch" }]).1
        (show_hide
          ⟨{ session := { config := {}, toast_topics := [] },
              fc := fun _ => none, canvas_ok := true, next_id := 0 },
            TaskContainer.empty, ANCHOR_LOCAL, ANCHOR_LOCAL⟩
          [{ id := 1, name := "watch" }]).2).2).headI)
    (by decide) (by decide)

theorem enqueueSorted_eq_split {α : Type} (τ : DeferredTask α) :
    ∀ l : List (DeferredTask α),
      enqueueSorted τ l
        = l.takeWhile (fun u => u.time ≤ τ.time)
          ++ τ :: l.dropWhile (fun u => u.time ≤ τ.time)
  | [] => rfl
  | t :: ts => by
    by_cases h : t.time ≤ τ.time
    · rw [enqueueSorted, if_pos h, enqueueSorted_eq_split τ ts,
        List.takeWhile_cons_of_pos (by simpa using h),
        List.dropWhile_cons_of_pos (by simpa using h), List.cons_append]
    · rw [enqueueSorted, if_neg h,
        List.takeWhile_cons_of_neg (by simpa using h),
        List.dropWhile_cons_of_neg (by simpa using h), List.nil_append]

theorem takeWhile_append_all {α : Type} {p : α → Bool} :
    ∀ {A : List α}, (B : List α) → (∀ a ∈ A, p a = true) →
      (A ++ B).takeWhile p = A ++ B.takeWhile p
  | [], B, _ => rfl
  | a :: A, B, h => by
    rw [List.cons_append, List.takeWhile_cons_of_pos
        (h a (List.mem_cons_self _ _)),
      takeWhile_append_all B (fun x hx => h x (List.mem_cons_of_mem _ hx)),
      List.cons_append]

theorem dropWhile_append_all {α : Type} {p : α → Bool} :
    ∀ {A : List α}, (B : List α) → (∀ a ∈ A, p a = true) →
      (A ++ B).dropWhile p = B.dropWhile p
  | [], B, _ => rfl
  | a :: A, B, h => by
    rw [List.cons_append, List.dropWhile_cons_of_pos
        (h a (List.mem_cons_self _ _)),
      dropWhile_append_all B (fun x hx => h x (List.mem_cons_of_mem _ hx))]

theorem takeWhile_eq_nil_of_all {α : Type} {p : α → Bool} :
    ∀ {B : List α}, (∀ a ∈ B, p a = false) → B.takeWhile p = []
  | [], _ => rfl
  | a :: B, h => by
    rw [List.takeWhile_cons_of_neg (by
      rw [h a (List.mem_cons_self _ _)]; exact Bool.false_ne_true)]

theorem dropWhile_eq_self_of_all {α : Type} {p : α → Bool} :
    ∀ {B : List α}, (∀ a ∈ B, p a = false) → B.dropWhile p = B
  | [], _ => rfl
  | a :: B, h => by
    rw [List.dropWhile_cons_of_neg (by
      rw [h a (List.mem_cons_self _ _)]; exact Bool.false_ne_true)]

/-- C8: (Toast producer pattern) `submit_at` enqueues exactly a
`DropOverlay(ByName "toast")` at the submission instant immediately
followed by a `CreateOverlay(ByName "toast", factory)` at the same
instant (inserted in FIFO position among same-or-earlier tasks of a
sorted queue); when the topic's display method is absent-or-`Hide` the
factory builds nothing and schedules nothing; when it is `Center` and
the collaborator oracles succeed, the factory returns an entity named
"toast", visible, positioned `FollowHead` with lerp 0.1, and schedules
a drop of exactly that entity's id at submission + timeout. -/
theorem toast_submit_at_spec
    (t : ToastM) (am : OverlayState → OverlayState) (app : AppM)
    (instant : ℚ)
    (hsor : app.tasks.tasks.Pairwise taskOrder) :
    ((t.submit_at am app instant).tasks.tasks
      = app.tasks.tasks.takeWhile (fun u => u.time ≤ instant)
        ++ ⟨instant, app.tasks.nextSeq, .DropOverlay (.Name TOAST_NAME)⟩
        :: ⟨instant, app.tasks.nextSeq + 1,
             .CreateOverlay (.Name TOAST_NAME)
               (toastFactory t (instant + t.timeout) am)⟩
        :: app.tasks.tasks.dropWhile (fun u => u.time ≤ instant))
    ∧ (∀ ctx : FactoryCtx,
        (idGet t.topic ctx.session.toast_topics).getD .Hide = .Hide →
        toastFactory t (instant + t.timeout) am ctx = none
        ∧ new_toast t ctx = none)
    ∧ (∀ (ctx : FactoryCtx) (w0 h0 w1 h1 : ℚ),
        idGet t.topic ctx.session.toast_topics = some .Center →
        ctx.fc (if t.title = "" then "Notification" else t.title)
          = some (w0, h0) →
        ctx.fc t.body = some (w1, h1) →
        ctx.canvas_ok = true →
        (∀ s, (am s).name = s.name ∧ (am s).want_visible = s.want_visible
            ∧ (am s).positioning = s.positioning) →
        ∃ st, new_toast t ctx = some st
          ∧ toastFactory t (instant + t.timeout) am ctx
              = some (am st, [(.Id (am st).id, instant + t.timeout)])
          ∧ (am st).name = TOAST_NAME
          ∧ (am st).want_visible = true
          ∧ (am st).positioning = .FollowHead (1/10)) := by
  refine ⟨?_, ?_, ?_⟩
  · have hA : ∀ a ∈ app.tasks.tasks.takeWhile
        (fun u => decide (u.time ≤ instant)),
        (fun (u : DeferredTask TaskType) => decide (u.time ≤ instant)) a
          = true := by
      intro a ha
      exact decide_eq_true (mem_takeWhile_ready instant a ha)
    have hB : ∀ a ∈ app.tasks.tasks.dropWhile
        (fun u => decide (u.time ≤ instant)),
        (fun (u : DeferredTask TaskType) => decide (u.time ≤ instant)) a
          = false := by
      intro a ha
      exact decide_eq_false (not_le.mpr (dropWhile_not_ready instant hsor a ha))
    have hstep : (t.submit_at am app instant).tasks.tasks
        = enqueueSorted ⟨instant, app.tasks.nextSeq + 1,
            .CreateOverlay (.Name TOAST_NAME)
              (toastFactory t (instant + t.timeout) am)⟩
          (enqueueSorted ⟨instant, app.tasks.nextSeq,
            .DropOverlay (.Name TOAST_NAME)⟩ app.tasks.tasks) := rfl
    rw [hstep, enqueueSorted_eq_split, enqueueSorted_eq_split]
    dsimp only
    rw [takeWhile_append_all _ hA, dropWhile_append_all _ hA,
      List.takeWhile_cons_of_pos (by simp),
      List.dropWhile_cons_of_pos (by simp),
      takeWhile_eq_nil_of_all hB, dropWhile_eq_self_of_all hB]
    simp
  · intro ctx hm
    have hplace : toastPlacement t ctx = none := by
      rw [toastPlacement, hm]
    constructor
    · simp only [toastFactory, new_toast, hplace]
    · simp only [new_toast, hplace]
  · intro ctx w0 h0 w1 h1 hm hfc1 hfc2 hcv ham
    have hplace : toastPlacement t ctx
        = some (⟨0, -(1/5), -(1/2)⟩, QuatQ.IDENTITY, .FollowHead (1/10)) := by
      rw [toastPlacement, hm]
      rfl
    by_cases hb : t.body = ""
    · refine ⟨{ id := ctx.next_id,
                name := TOAST_NAME,
                want_visible := true,
                spawn_scale := (w0 + 25 * 2) * PIXELS_TO_METERS,
                spawn_rotation := QuatQ.IDENTITY,
                spawn_point := ⟨0, -(1/5), -(1/2)⟩,
                z_order := Z_ORDER_TOAST,
                positioning := .FollowHead (1/10) },
        ?_, ?_, (ham _).1, (ham _).2.1.trans rfl, (ham _).2.2.trans rfl⟩
      · simp [new_toast, hplace, hb, hfc1, hcv]
      · simp [toastFactory, new_toast, hplace, hb, hfc1, hcv]
    · refine ⟨{ id := ctx.next_id,
                name := TOAST_NAME,
                want_visible := true,
                spawn_scale := (max w0 w1 + 25 * 2) * PIXELS_TO_METERS,
                spawn_rotation := QuatQ.IDENTITY,
                spawn_point := ⟨0, -(1/5), -(1/2)⟩,
                z_order := Z_ORDER_TOAST,
                positioning := .FollowHead (1/10) },
        ?_, ?_, (ham _).1, (ham _).2.1.trans rfl, (ham _).2.2.trans rfl⟩
      · simp [new_toast, hplace, hb, hfc1, hfc2, hcv]
      · simp [toastFactory, new_toast, hplace, hb, hfc1, hfc2, hcv]

/-- Witness for C8 at concrete inputs: an empty sorted queue; under a
session whose `System` topic displays `Center`, a body-less toast's
factory builds the visible `FollowHead` state and schedules its own
timeout drop. -/
theorem toast_submit_at_spec_witness :
    ∃ st, new_toast (ToastM.new .System "hi" "")
        ⟨⟨{}, [(.System, .Center)]⟩, fun _ => some (100, 20), true, 0⟩
        = some st
      ∧ toastFactory (ToastM.new .System "hi" "") (0 + (ToastM.new .System "hi" "").timeout) id
          ⟨⟨{}, [(.System, .Center)]⟩, fun _ => some (100, 20), true, 0⟩
          = some (id st, [(.Id (id st).id, 0 + (ToastM.new .System "hi" "").timeout)])
      ∧ (id st).name = TOAST_NAME
      ∧ (id st).want_visible = true
      ∧ (id st).positioning = .FollowHead (1/10) :=
  (toast_submit_at_spec (ToastM.new .System "hi" "") id
      ⟨⟨⟨{}, [(.System, .Center)]⟩, fun _ => some (100, 20), true, 0⟩,
        TaskContainer.empty, ANCHOR_LOCAL, ANCHOR_LOCAL⟩ 0
      List.Pairwise.nil).2.2
    ⟨⟨{}, [(.System, .Center)]⟩, fun _ => some (100, 20), true, 0⟩
    100 20 100 20 rfl rfl rfl rfl
    (fun _ => ⟨rfl, rfl, rfl⟩)

/-- C9: (unconfigured topics are silently hidden) a toast whose topic
has no entry in the session's `toast_topics` map builds nothing — the
display method defaults to `Hide` — and under `AppSession::load` with a
default config (no `notification_topics` overrides) the registered
topics are exactly System, DesktopNotification and XSNotification, so
an `IpdChange` toast resolves to no entry and produces no overlay. -/
theorem unconfigured_topic_hidden
    (t : ToastM) (ctx : FactoryCtx) (config : GeneralConfigM)
    (hcfg : config.notification_topics = [])
    (hses : ctx.session = AppSession.load config)
    (htopic : t.topic = .IpdChange) :
    idGet t.topic ctx.session.toast_topics = none
    ∧ new_toast t ctx = none
    ∧ (∀ (u : ToastM) (cx : FactoryCtx),
        idGet u.topic cx.session.toast_topics = none →
        new_toast u cx = none) := by
  have hload : (AppSession.load config).toast_topics
      = [(.System, .Center), (.DesktopNotification, .Center),
         (.XSNotification, .Center)] := by
    rw [AppSession.load, hcfg]
    rfl
  have hnone : idGet ToastTopic.IpdChange
      ([(.System, .Center), (.DesktopNotification, .Center),
        (.XSNotification, .Center)] : List (ToastTopic × DisplayMethod))
      = none := by decide
  have habs : ∀ (u : ToastM) (cx : FactoryCtx),
      idGet u.topic cx.session.toast_topics = none →
      new_toast u cx = none := by
    intro u cx h
    have hplace : toastPlacement u cx = none := by
      rw [toastPlacement, h]
      rfl
    simp only [new_toast, hplace]
  have h1 : idGet t.topic ctx.session.toast_topics = none := by
    rw [htopic, hses, hload]
    exact hnone
  exact ⟨h1, habs t ctx h1, habs⟩

/-- Witness for C9 at concrete inputs: with the default config loaded,
an `IpdChange` toast has no display-method entry and builds nothing. -/
theorem unconfigured_topic_hidden_witness :
    idGet (ToastM.new .IpdChange "a" "b").topic
        (FactoryCtx.session ⟨AppSession.load {}, fun _ => none, true, 0⟩).toast_topics
      = none
    ∧ new_toast (ToastM.new .IpdChange "a" "b")
        ⟨AppSession.load {}, fun _ => none, true, 0⟩ = none :=
  ⟨(unconfigured_topic_hidden (ToastM.new .IpdChange "a" "b")
      ⟨AppSession.load {}, fun _ => none, true, 0⟩ {} rfl rfl rfl).1,
   (unconfigured_topic_hidden (ToastM.new .IpdChange "a" "b")
      ⟨AppSession.load {}, fun _ => none, true, 0⟩ {} rfl rfl rfl).2.1⟩

end Wlx
